import Mathlib

/-!
Shallow embedding of `build_geo_lookups.py` and `build_postcode_lookup.py`
(postcodelookuptable repository).

Conventions of the embedding:
* A pandas `DataFrame` produced by `pd.read_excel` is modelled as a `Sheet`:
  an ordered list of column headers together with row-major cells.  A cell is
  `Option String`: `none` models a missing value (`NaN`), `some v` a string.
* `Series.astype(str)` renders a missing value as the string "nan", exactly as
  pandas does; this is modelled by `astype_str`.
* Python `str.lower` / `str.strip` are modelled over ASCII by `lowerStr` and
  `stripStr`; Python `in` on strings (contiguous substring) by `isInfixList`.
* `df.empty` is true when either axis has length zero, modelled by
  `rows.isEmpty || headers.isEmpty`.
* Python dict construction (later keys overwrite earlier ones) is modelled by
  last-wins lookups (`colmapGet`, `dictGet`).
-/

/-- ASCII model of Python `str.lower` on a single character. -/
def lowerChar (c : Char) : Char :=
  if 65 ≤ c.toNat ∧ c.toNat ≤ 90 then Char.ofNat (c.toNat + 32) else c

/-- ASCII model of Python `str.lower`. -/
def lowerStr (s : String) : String := ⟨s.data.map lowerChar⟩

/-- ASCII whitespace recognised by the model of `str.strip`. -/
def isSpaceChar (c : Char) : Bool := c == ' ' || c == '\t' || c == '\n' || c == '\r'

/-- Trim whitespace from both ends of a character list. -/
def stripChars (l : List Char) : List Char :=
  ((l.dropWhile isSpaceChar).reverse.dropWhile isSpaceChar).reverse

/-- Model of Python `str.strip()`. -/
def stripStr (s : String) : String := ⟨stripChars s.data⟩

/-- Boolean contiguous-prefix test on character lists. -/
def isPrefixOfList : List Char → List Char → Bool
  | [], _ => true
  | _ :: _, [] => false
  | a :: as, b :: bs => a == b && isPrefixOfList as bs

/-- Boolean contiguous-substring test on character lists: Python `in` on strings. -/
def isInfixList (pat : List Char) : List Char → Bool
  | [] => isPrefixOfList pat []
  | b :: bs => isPrefixOfList pat (b :: bs) || isInfixList pat bs

/-- A raw sheet as handed over by the I/O collaborator (`pd.read_excel`):
ordered headers plus row-major cells (`none` = missing / NaN). -/
structure Sheet where
  headers : List String
  rows : List (List (Option String))
deriving DecidableEq

/-- The `column_map` configuration: one ordered candidate list per canonical
field; a missing key defaults to `[]`, as `colmap.get(field, [])` does. -/
structure ColMap where
  code : List String := []
  name : List String := []
  alternatename : List String := []
  status : List String := []
deriving DecidableEq

/-- A canonical output record: row of the coerced frame with columns
`Code, Name, AlternateName, Status` (a `none` field models `pd.NA`). -/
structure Record where
  Code : String
  Name : Option String
  AlternateName : Option String
  Status : Option String
deriving DecidableEq

/-- `colmap = {c.lower(): c for c in df.columns}` followed by `colmap[key]`:
the LAST column whose lowercase form equals `key` wins, because later dict
insertions overwrite earlier ones. -/
def colmapGet (headers : List String) (key : String) : Option String :=
  match headers with
  | [] => none
  | c :: rest =>
    match colmapGet rest key with
    | some r => some r
    | none => if lowerStr c == key then some c else none

/-- First loop of `_first_present`: exact case-insensitive match, candidates
in declared order. -/
def exactPass (headers : List String) (candidates : List String) : Option String :=
  candidates.findSome? (fun cand => colmapGet headers (lowerStr cand))

/-- Second loop of `_first_present`: relaxed `contains` match, candidates in
declared order, columns in frame order; an empty candidate is skipped
(`if key and key in c.lower()`). -/
def containsPass (headers : List String) (candidates : List String) : Option String :=
  candidates.findSome? (fun cand =>
    let key := lowerStr cand
    if key == "" then none
    else headers.find? (fun c => isInfixList key.data (lowerStr c).data))

/-- `_first_present(df, candidates)` (build_geo_lookups.py lines 51-70):
`None` for an empty frame, else the exact pass, else the contains pass. -/
def first_present (df : Sheet) (candidates : List String) : Option String :=
  if df.rows.isEmpty || df.headers.isEmpty then none
  else
    match exactPass df.headers candidates with
    | some c => some c
    | none => containsPass df.headers candidates

/-- `_normcols`: strip whitespace from every header. -/
def normcols (df : Sheet) : Sheet := ⟨df.headers.map stripStr, df.rows⟩

/-- `_has_required_columns` (lines 73-78): a resolvable `code` column after
header normalisation. -/
def has_required_columns (df : Sheet) (colmap : ColMap) : Bool :=
  (first_present (normcols df) colmap.code).isSome

/-- `Series.astype(str)` on a string-or-NaN cell: pandas renders `NaN` as the
string "nan". -/
def astype_str : Option String → String
  | none => "nan"
  | some v => v

/-- `df[col]` for one row: the cell under the first header equal to `col`. -/
def getColCell (df : Sheet) (col : String) (row : List (Option String)) : Option String :=
  match df.headers.findIdx? (fun c => c == col) with
  | some i => row.getD i none
  | none => none

/-- One row of the coerced frame: `df[col].astype(str).str.strip()` for each
resolved column, `pd.NA` for an unresolved optional column. -/
def mkRec (df : Sheet) (code_col : String) (name_col alt_col status_col : Option String)
    (row : List (Option String)) : Record :=
  { Code := stripStr (astype_str (getColCell df code_col row))
    Name := name_col.map (fun h => stripStr (astype_str (getColCell df h row)))
    AlternateName := alt_col.map (fun h => stripStr (astype_str (getColCell df h row)))
    Status := status_col.map (fun h => stripStr (astype_str (getColCell df h row))) }

/-- The coerced rows that survive the cleaning filters of `_coerce_sheet`:
`out.dropna(subset=["Code"])` is a no-op because `astype(str)` leaves no NA in
`Code`, and `out[out["Code"].str.len() > 0]` keeps rows with a non-empty code
string.  `df` is the normalised sheet, `code_col` the resolved code column. -/
def validRecs (df : Sheet) (colmap : ColMap) (code_col : String) : List Record :=
  (df.rows.map (mkRec df code_col (first_present df colmap.name)
      (first_present df colmap.alternatename) (first_present df colmap.status))).filter
    (fun r => r.Code.length > 0)

/-- `drop_duplicates(subset=["Code"])`: keep the first row for each code. -/
def dedupByCode : List Record → List String → List Record
  | [], _ => []
  | r :: rs, seen =>
    if r.Code ∈ seen then dedupByCode rs seen
    else r :: dedupByCode rs (r.Code :: seen)

/-- `_coerce_sheet(df, colmap)` (lines 81-122): normalise headers, resolve the
four fields, skip the sheet when `code` is unresolved, build the canonical
rows, drop empty codes, and keep the first row per code. -/
def coerce_sheet (df0 : Sheet) (colmap : ColMap) : List Record :=
  let df := normcols df0
  match first_present df colmap.code with
  | none => []
  | some code_col => dedupByCode (validRecs df colmap code_col) []

/-- `_filter_sheet_names` (lines 135-151): a non-empty explicit list keeps the
names of `all_names` that appear in it (in `all_names` order); otherwise a
present pattern keeps names whose stripped value the anchored regex matches
(`rx.match(n.strip() or "")`, where `or ""` is the identity on strings); else
all names.  The anchored `re.match` of the compiled pattern is modelled by an
abstract matcher `String → Bool` supplied by the regex collaborator. -/
def filter_sheet_names (all_names : List String) (explicit_list : List String)
    (pattern : Option (String → Bool)) : List String :=
  if explicit_list.isEmpty then
    match pattern with
    | some rx => all_names.filter (fun n => rx (stripStr n))
    | none => all_names
  else all_names.filter (fun n => explicit_list.contains n)

/-- The `geo_lookup` configuration section, after the normalisations the
script applies (`or []`, `or {}`). -/
structure GeoConfig where
  ewni_sheets : List String := []
  scotland_sheets : List String := []
  sheet_name_pattern : Option (String → Bool) := none
  column_map : ColMap := {}
  per_sheet_overrides : List (String × ColMap) := []

/-- `_load_xlsx` (lines 125-132): each sheet is parsed in order by
`pd.read_excel`; the collaborator hands over either a parsed `Sheet` or a
parse error, and the first error escapes the whole load. -/
def load_xlsx : List (String × Except String Sheet) → Except String (List (String × Sheet))
  | [] => .ok []
  | (_, .error e) :: _ => .error e
  | (n, .ok s) :: rest => (load_xlsx rest).map (fun r => (n, s) :: r)

/-- The per-sheet loop of `build_geo_lookup` (lines 185-194 and 201-210): for
each selected sheet name, fetch its frame, pick the per-sheet override or the
base column map, skip the sheet when it has no resolvable code column, and
otherwise coerce it.  Produces the coerced batches in selection order,
including empty ones (the `if not coerced.empty` filter is applied by the
caller before appending to `outputs`). -/
def sheetBatches (wb : List (String × Sheet)) (explicit : List String) (cfg : GeoConfig) :
    List (List Record) :=
  (filter_sheet_names (wb.map Prod.fst) explicit cfg.sheet_name_pattern).filterMap
    (fun sheet =>
      match wb.lookup sheet with
      | none => none
      | some df =>
        let use_map := (cfg.per_sheet_overrides.lookup sheet).getD cfg.column_map
        if has_required_columns df use_map then some (coerce_sheet df use_map) else none)

/-- Errors of the embedded build: a workbook/sheet load failure (any exception
escaping `_load_xlsx`), or the `RuntimeError` raised when no sheet yields
records. -/
inductive BuildError where
  | loadError (msg : String)
  | emptyResult
deriving DecidableEq

/-- `pd.concat(outputs).drop_duplicates(subset=["Code"])` (lines 215-216). -/
def merge_batches (batches : List (List Record)) : List Record :=
  dedupByCode batches.flatten []

/-- `build_geo_lookup` (lines 154-230) after config/reading are delegated:
load the EW/NI workbook, process its selected sheets, load Scotland, process
its selected sheets, fail when no non-empty batch was appended, and otherwise
concatenate and deduplicate by `Code`. -/
def build_geo_lookup (rawEwni rawScot : List (String × Except String Sheet))
    (cfg : GeoConfig) : Except BuildError (List Record) :=
  match load_xlsx rawEwni with
  | .error e => .error (.loadError e)
  | .ok ewni =>
    let out1 := (sheetBatches ewni cfg.ewni_sheets cfg).filter (fun b => !b.isEmpty)
    match load_xlsx rawScot with
    | .error e => .error (.loadError e)
    | .ok scot =>
      let out2 := (sheetBatches scot cfg.scotland_sheets cfg).filter (fun b => !b.isEmpty)
      let outputs := out1 ++ out2
      if outputs.isEmpty then .error .emptyResult
      else .ok (merge_batches outputs)

/-- The `__main__` wrapper (lines 233-239): any exception is caught and the
process exits with status 1; on success the table is written and the exit
status is 0.  Returns (exit status, written lookup table). -/
def run_geo (rawEwni rawScot : List (String × Except String Sheet)) (cfg : GeoConfig) :
    Nat × Option (List Record) :=
  match build_geo_lookup rawEwni rawScot cfg with
  | .ok t => (0, some t)
  | .error _ => (1, none)

/-- A secondary table (the NSPL frame read with `dtype=str`): ordered columns,
each a header paired with its cell values (`none` = NaN). -/
abbrev Table : Type := List (String × List (Option String))

/-- The code→name dict `dict(zip(geo["Code"], geo["Name"]))`; a `Name` read as
NaN is `none`. -/
abbrev GeoDict : Type := List (String × Option String)

/-- Column selection `df[col]`: values of the first column with that label. -/
def getCol (t : Table) (h : String) : List (Option String) :=
  ((t.find? (fun p => p.1 == h)).map Prod.snd).getD []

/-- Column assignment `df[h] = vals`: overwrite the column in place when the
label exists, otherwise append a new column at the end. -/
def setCol (t : Table) (h : String) (vals : List (Option String)) : Table :=
  if t.any (fun p => p.1 == h) then
    t.map (fun p => if p.1 == h then (h, vals) else p)
  else t ++ [(h, vals)]

/-- Python dict lookup where the dict was built by inserting pairs in order:
the LAST pair with the key wins. -/
def dictGet (d : GeoDict) (k : String) : Option (Option String) :=
  match d with
  | [] => none
  | p :: rest =>
    match dictGet rest k with
    | some v => some v
    | none => if p.1 == k then some p.2 else none

/-- `df[col].map(code_to_name)`: a NaN cell stays NaN, a code missing from the
dict becomes NaN, otherwise the dict's name value (itself possibly NaN). -/
def mapThroughDict (vals : List (Option String)) (d : GeoDict) : List (Option String) :=
  vals.map (fun v => v.bind (fun code => (dictGet d code).join))

/-- One iteration of the join loop of `build_postcode_lookup` (lines 35-37):
`if col in df.columns: df[f"{col}_name"] = df[col].map(code_to_name)`.  The
membership test runs against the current (already extended) frame. -/
def join_step (d : GeoDict) (acc : Table) (col : String) : Table :=
  if acc.any (fun p => p.1 == col) then
    setCol acc (col ++ "_name") (mapThroughDict (getCol acc col) d)
  else acc

/-- The full join loop over `join_name_for_codes`. -/
def joinColumns (t : Table) (join_codes : List String) (d : GeoDict) : Table :=
  join_codes.foldl (join_step d) t

/-- `df.rename(columns=mapping)` (line 39): relabel columns through the
mapping, leaving values untouched; labels without a mapping entry are kept. -/
def renameCols (t : Table) (mapping : List (String × String)) : Table :=
  t.map (fun p => (((mapping.find? (fun q => q.1 == p.1)).map Prod.snd).getD p.1, p.2))

/-- `build_postcode_lookup` (lines 17-47) after reading is delegated: enrich
the secondary table by the join loop, then apply the final rename. -/
def build_postcode_lookup (t : Table) (join_codes : List String) (d : GeoDict)
    (rename_final : List (String × String)) : Table :=
  renameCols (joinColumns t join_codes d) rename_final

/-! ### Helper lemmas about the resolver -/

lemma isPrefixOfList_refl (l : List Char) : isPrefixOfList l l = true := by
  induction l with
  | nil => rfl
  | cons a as ih => simp [isPrefixOfList, ih]

lemma isInfixList_refl (l : List Char) : isInfixList l l = true := by
  cases l with
  | nil => rfl
  | cons b bs => simp [isInfixList, isPrefixOfList_refl]

lemma colmapGet_some {headers : List String} {key c : String}
    (h : colmapGet headers key = some c) : c ∈ headers ∧ lowerStr c = key := by
  induction headers with
  | nil => simp [colmapGet] at h
  | cons hd tl ih =>
    rw [colmapGet] at h
    cases hcg : colmapGet tl key with
    | some r =>
      rw [hcg] at h
      obtain rfl : r = c := by simpa using h
      obtain ⟨h1, h2⟩ := ih hcg
      exact ⟨List.mem_cons_of_mem _ h1, h2⟩
    | none =>
      rw [hcg] at h
      by_cases hk : lowerStr hd == key
      · rw [if_pos hk] at h
        obtain rfl : hd = c := by simpa using h
        exact ⟨List.mem_cons_self _ _, by simpa using hk⟩
      · rw [if_neg hk] at h
        simp at h

lemma colmapGet_isSome {headers : List String} {key : String} (c : String)
    (hc : c ∈ headers) (hk : lowerStr c = key) : (colmapGet headers key).isSome := by
  induction headers with
  | nil => simp at hc
  | cons hd tl ih =>
    rw [colmapGet]
    cases hcg : colmapGet tl key with
    | some r => simp
    | none =>
      rcases List.mem_cons.mp hc with rfl | htl
      · simp [hk]
      · have := ih htl
        rw [hcg] at this
        simp at this

lemma findSome?_some_exists {α β : Type} {f : α → Option β} {l : List α} {b : β}
    (h : l.findSome? f = some b) : ∃ a, a ∈ l ∧ f a = some b := by
  obtain ⟨l₁, a, l₂, rfl, hfa, -⟩ := List.findSome?_eq_some_iff.mp h
  exact ⟨a, by simp, hfa⟩

/-- C1: `_first_present` is a pure function of its frame and candidate list
(determinism is by construction), runs its full exact pass before any
contains pass — so whenever any header is an exact case-insensitive match for
any candidate, the result is such an exact match, regardless of candidate
position — and returns `none` when no candidate matches any header even as a
case-insensitive substring. -/
theorem C1_resolver_two_pass (df : Sheet) (cands : List String) :
    (df.rows ≠ [] →
      (∃ c, c ∈ cands ∧ ∃ h, h ∈ df.headers ∧ lowerStr h = lowerStr c) →
      ∃ h, first_present df cands = some h ∧ h ∈ df.headers ∧
        ∃ c, c ∈ cands ∧ lowerStr h = lowerStr c) ∧
    ((∀ c, c ∈ cands → ∀ h, h ∈ df.headers →
        isInfixList (lowerStr c).data (lowerStr h).data = false) →
      first_present df cands = none) := by
  constructor
  · intro hrows hex
    obtain ⟨c, hc, h, hh, heq⟩ := hex
    have hheaders : df.headers ≠ [] := by
      intro hnil; rw [hnil] at hh; simp at hh
    have hcond : (df.rows.isEmpty || df.headers.isEmpty) = false := by
      simp [hrows, hheaders]
    have hsome : (exactPass df.headers cands).isSome := by
      rw [exactPass, List.findSome?_isSome_iff]
      exact ⟨c, hc, colmapGet_isSome h hh heq⟩
    obtain ⟨h', hexact⟩ := Option.isSome_iff_exists.mp hsome
    obtain ⟨c', hc', hcg⟩ := findSome?_some_exists hexact
    obtain ⟨hmem, hlow⟩ := colmapGet_some hcg
    refine ⟨h', ?_, hmem, c', hc', hlow⟩
    rw [first_present, hcond]
    simp [hexact]
  · intro hno
    rw [first_present]
    by_cases hcond : (df.rows.isEmpty || df.headers.isEmpty) = true
    · rw [if_pos hcond]
    · rw [if_neg hcond]
      have hexact : exactPass df.headers cands = none := by
        rw [exactPass, List.findSome?_eq_none_iff]
        intro cand hcand
        cases hcg : colmapGet df.headers (lowerStr cand) with
        | none => rfl
        | some c =>
          obtain ⟨hmem, hlow⟩ := colmapGet_some hcg
          have := hno cand hcand c hmem
          rw [hlow, isInfixList_refl] at this
          exact absurd this (by simp)
      rw [hexact]
      rw [containsPass, List.findSome?_eq_none_iff]
      intro cand hcand
      by_cases hkey : lowerStr cand == ""
      · simp only [hkey]
        rfl
      · simp only [hkey]
        rw [if_neg (by simp)]
        rw [List.find?_eq_none]
        intro col hcol
        simp [hno cand hcand col hcol]

/-- C1 witness: on a sheet with headers `GEOGCD, GEOGNM` and one data row,
candidates `["Code", "GEOGCD"]` resolve to the exact match `GEOGCD`. -/
theorem C1_resolver_witness :
    ∃ h, first_present ⟨["GEOGCD", "GEOGNM"], [[some "E08000001", some "Example"]]⟩
        ["Code", "GEOGCD"] = some h ∧
      h ∈ (Sheet.mk ["GEOGCD", "GEOGNM"] [[some "E08000001", some "Example"]]).headers ∧
      ∃ c, c ∈ ["Code", "GEOGCD"] ∧ lowerStr h = lowerStr c :=
  (C1_resolver_two_pass ⟨["GEOGCD", "GEOGNM"], [[some "E08000001", some "Example"]]⟩
      ["Code", "GEOGCD"]).1 (by decide)
    ⟨"GEOGCD", by decide, "GEOGCD", by decide, rfl⟩

/-- C10: a sheet with zero data rows makes `_first_present` return `None` for
every candidate list (even when a header matches a candidate exactly), so the
sheet fails `_has_required_columns` and is skipped, and its coercion holds no
records. -/
theorem C10_empty_sheet_skipped (df : Sheet) (cands : List String) (cm : ColMap)
    (h : df.rows = []) :
    first_present df cands = none ∧ has_required_columns df cm = false ∧
      coerce_sheet df cm = [] := by
  have hfp : ∀ (df2 : Sheet), df2.rows = [] → ∀ cnds, first_present df2 cnds = none := by
    intro df2 h2 cnds
    rw [first_present, h2]
    simp
  refine ⟨hfp df h cands, ?_, ?_⟩
  · rw [has_required_columns, hfp (normcols df) (by simp [normcols, h]) cm.code]
    rfl
  · rw [coerce_sheet]
    simp only [hfp (normcols df) (by simp [normcols, h]) cm.code]

/-- C10 witness: the empty sheet with header `Code` and candidate `Code`
(an exact header match) still resolves to `None`, is skipped and coerces to
nothing. -/
theorem C10_empty_sheet_witness :
    "Code" ∈ (Sheet.mk ["Code"] []).headers ∧
      (first_present ⟨["Code"], []⟩ ["Code"] = none ∧
        has_required_columns ⟨["Code"], []⟩ { code := ["Code"] } = false ∧
        coerce_sheet ⟨["Code"], []⟩ { code := ["Code"] } = []) :=
  ⟨by decide, C10_empty_sheet_skipped ⟨["Code"], []⟩ ["Code"] { code := ["Code"] } rfl⟩

/-! ### Helper lemmas about first-seen-wins deduplication -/

lemma dedupByCode_sublist (l : List Record) (seen : List String) :
    (dedupByCode l seen).Sublist l := by
  induction l generalizing seen with
  | nil => simp [dedupByCode]
  | cons r rs ih =>
    rw [dedupByCode]
    by_cases h : r.Code ∈ seen
    · rw [if_pos h]
      exact (ih seen).cons r
    · rw [if_neg h]
      exact (ih (r.Code :: seen)).cons₂ r

lemma dedupByCode_code_not_mem_seen {l : List Record} {seen : List String} {r : Record}
    (h : r ∈ dedupByCode l seen) : r.Code ∉ seen := by
  induction l generalizing seen with
  | nil => simp [dedupByCode] at h
  | cons x xs ih =>
    rw [dedupByCode] at h
    by_cases hx : x.Code ∈ seen
    · rw [if_pos hx] at h
      exact ih h
    · rw [if_neg hx] at h
      rcases List.mem_cons.mp h with rfl | htl
      · exact hx
      · have := ih htl
        intro hseen
        exact this (List.mem_cons_of_mem _ hseen)

lemma dedupByCode_codes_nodup (l : List Record) (seen : List String) :
    ((dedupByCode l seen).map Record.Code).Nodup := by
  induction l generalizing seen with
  | nil => simp [dedupByCode]
  | cons x xs ih =>
    rw [dedupByCode]
    by_cases hx : x.Code ∈ seen
    · rw [if_pos hx]
      exact ih seen
    · rw [if_neg hx]
      rw [List.map_cons, List.nodup_cons]
      refine ⟨?_, ih (x.Code :: seen)⟩
      intro hmem
      obtain ⟨r, hr, hcode⟩ := List.mem_map.mp hmem
      have := dedupByCode_code_not_mem_seen hr
      rw [hcode] at this
      exact this (List.mem_cons_self _ _)

lemma dedupByCode_find? {l : List Record} {seen : List String} {r : Record}
    (h : r ∈ dedupByCode l seen) :
    l.find? (fun x => x.Code == r.Code) = some r := by
  induction l generalizing seen with
  | nil => simp [dedupByCode] at h
  | cons x xs ih =>
    rw [dedupByCode] at h
    by_cases hx : x.Code ∈ seen
    · rw [if_pos hx] at h
      have hne : x.Code ≠ r.Code := by
        intro heq
        exact dedupByCode_code_not_mem_seen h (heq ▸ hx)
      rw [List.find?_cons_of_neg _ (by simpa using hne)]
      exact ih h
    · rw [if_neg hx] at h
      rcases List.mem_cons.mp h with rfl | htl
      · rw [List.find?_cons_of_pos _ (by simp)]
      · have hnotin := dedupByCode_code_not_mem_seen htl
        have hne : x.Code ≠ r.Code := by
          intro heq
          exact hnotin (heq ▸ List.mem_cons_self _ _)
        rw [List.find?_cons_of_neg _ (by simpa using hne)]
        exact ih htl

lemma dedupByCode_covers {l : List Record} {seen : List String} {r : Record}
    (hr : r ∈ l) (hseen : r.Code ∉ seen) :
    ∃ x, x ∈ dedupByCode l seen ∧ x.Code = r.Code := by
  induction l generalizing seen with
  | nil => simp at hr
  | cons y ys ih =>
    rw [dedupByCode]
    by_cases hy : y.Code ∈ seen
    · rw [if_pos hy]
      rcases List.mem_cons.mp hr with rfl | htl
      · exact absurd hy hseen
      · exact ih htl hseen
    · rw [if_neg hy]
      by_cases hcode : r.Code = y.Code
      · exact ⟨y, List.mem_cons_self _ _, hcode.symm⟩
      · rcases List.mem_cons.mp hr with rfl | htl
        · exact absurd rfl hcode
        · obtain ⟨x, hx, hxc⟩ := ih htl (by
            intro hmem
            rcases List.mem_cons.mp hmem with heq | htl2
            · exact hcode heq
            · exact hseen htl2)
          exact ⟨x, List.mem_cons_of_mem _ hx, hxc⟩

/-- C2: merging record batches (concatenation then
`drop_duplicates(subset=["Code"])`) yields a table whose codes are pairwise
distinct, in which every record is exactly the first record bearing its code
in the concatenation — i.e. the record of the earliest-processed batch,
unchanged field for field — and no code of any batch is lost. -/
theorem C2_merge_first_seen_wins (batches : List (List Record)) :
    (merge_batches batches).Sublist batches.flatten ∧
    ((merge_batches batches).map Record.Code).Nodup ∧
    (∀ r, r ∈ merge_batches batches →
      batches.flatten.find? (fun x => x.Code == r.Code) = some r) ∧
    (∀ r, r ∈ batches.flatten →
      ∃ x, x ∈ merge_batches batches ∧ x.Code = r.Code) := by
  refine ⟨dedupByCode_sublist _ _, dedupByCode_codes_nodup _ _, ?_, ?_⟩
  · intro r hr
    exact dedupByCode_find? hr
  · intro r hr
    exact dedupByCode_covers hr (by simp)

/-- C2 witness: with a duplicate code `E1` across two batches, the merged
table keeps the first batch's record unchanged and both codes survive. -/
theorem C2_merge_witness :
    merge_batches [[⟨"E1", some "A", none, none⟩],
        [⟨"E1", some "B", none, none⟩, ⟨"E2", some "C", none, none⟩]] =
      [⟨"E1", some "A", none, none⟩, ⟨"E2", some "C", none, none⟩] ∧
    ∃ x, x ∈ merge_batches [[⟨"E1", some "A", none, none⟩],
        [⟨"E1", some "B", none, none⟩, ⟨"E2", some "C", none, none⟩]] ∧
      x.Code = Record.Code ⟨"E1", some "B", none, none⟩ :=
  ⟨by decide,
    (C2_merge_first_seen_wins [[⟨"E1", some "A", none, none⟩],
        [⟨"E1", some "B", none, none⟩, ⟨"E2", some "C", none, none⟩]]).2.2.2
      ⟨"E1", some "B", none, none⟩ (by decide)⟩

/-- C3: when the code field resolves to absent the sheet coerces to zero
records with no failure; otherwise the coerced records are drawn from the
sheet's rows in row order (a sublist of the cleaned row records), carry the
resolved columns' trimmed values with `pd.NA` for each unresolved optional
field, and only the first row for each repeated code survives. -/
theorem C3_coerce_sheet (df0 : Sheet) (cm : ColMap) :
    (first_present (normcols df0) cm.code = none → coerce_sheet df0 cm = []) ∧
    (∀ code_col, first_present (normcols df0) cm.code = some code_col →
      (coerce_sheet df0 cm).Sublist (validRecs (normcols df0) cm code_col) ∧
      ((coerce_sheet df0 cm).map Record.Code).Nodup ∧
      (∀ r, r ∈ coerce_sheet df0 cm →
        (validRecs (normcols df0) cm code_col).find? (fun x => x.Code == r.Code) = some r) ∧
      (∀ r, r ∈ validRecs (normcols df0) cm code_col →
        ∃ x, x ∈ coerce_sheet df0 cm ∧ x.Code = r.Code) ∧
      (∀ r, r ∈ coerce_sheet df0 cm → ∃ row, row ∈ df0.rows ∧
        r = mkRec (normcols df0) code_col (first_present (normcols df0) cm.name)
            (first_present (normcols df0) cm.alternatename)
            (first_present (normcols df0) cm.status) row ∧ r.Code.length > 0) ∧
      (∀ r, r ∈ coerce_sheet df0 cm →
        (first_present (normcols df0) cm.name = none → r.Name = none) ∧
        (first_present (normcols df0) cm.alternatename = none → r.AlternateName = none) ∧
        (first_present (normcols df0) cm.status = none → r.Status = none))) := by
  constructor
  · intro h
    simp only [coerce_sheet, h]
  · intro code_col h
    have hc : coerce_sheet df0 cm = dedupByCode (validRecs (normcols df0) cm code_col) [] := by
      simp only [coerce_sheet, h]
    have hfrom : ∀ r, r ∈ coerce_sheet df0 cm → ∃ row, row ∈ df0.rows ∧
        r = mkRec (normcols df0) code_col (first_present (normcols df0) cm.name)
            (first_present (normcols df0) cm.alternatename)
            (first_present (normcols df0) cm.status) row ∧ r.Code.length > 0 := by
      intro r hr
      rw [hc] at hr
      have hmem : r ∈ validRecs (normcols df0) cm code_col :=
        (dedupByCode_sublist _ _).subset hr
      rw [validRecs] at hmem
      obtain ⟨hmap, hpred⟩ := List.mem_filter.mp hmem
      obtain ⟨row, hrow, hrec⟩ := List.mem_map.mp hmap
      exact ⟨row, hrow, hrec.symm, of_decide_eq_true hpred⟩
    refine ⟨?_, ?_, ?_, ?_, hfrom, ?_⟩
    · rw [hc]
      exact dedupByCode_sublist _ _
    · rw [hc]
      exact dedupByCode_codes_nodup _ _
    · intro r hr
      rw [hc] at hr
      exact dedupByCode_find? hr
    · intro r hr
      rw [hc]
      exact dedupByCode_covers hr (by simp)
    · intro r hr
      obtain ⟨row, hrow, rfl, hlen⟩ := hfrom r hr
      refine ⟨?_, ?_, ?_⟩
      · intro hnone
        simp [mkRec, hnone]
      · intro hnone
        simp [mkRec, hnone]
      · intro hnone
        simp [mkRec, hnone]

/-- Scenario A sheet: headers `GEOGCD, GEOGNM`, one data row. -/
def sheetA : Sheet := ⟨["GEOGCD", "GEOGNM"], [[some "E08000001", some "Example"]]⟩

/-- Scenario A column map. -/
def cmA : ColMap := { code := ["Code", "GEOGCD"], name := ["Name", "GEOGNM"] }

/-- C3 witness: Scenario A coerces to exactly one canonical record with the
trimmed name, null `AlternateName`/`Status`, distinct codes, and the record's
code is reachable through the coverage clause of the theorem. -/
theorem C3_coerce_witness :
    coerce_sheet sheetA cmA = [⟨"E08000001", some "Example", none, none⟩] ∧
    ((coerce_sheet sheetA cmA).map Record.Code).Nodup ∧
    ∃ x, x ∈ coerce_sheet sheetA cmA ∧ x.Code = "E08000001" := by
  refine ⟨by decide, ((C3_coerce_sheet sheetA cmA).2 "GEOGCD" (by decide)).2.1, ?_⟩
  obtain ⟨x, hx, hcode⟩ := ((C3_coerce_sheet sheetA cmA).2 "GEOGCD" (by decide)).2.2.2.1
    ⟨"E08000001", some "Example", none, none⟩ (by decide)
  exact ⟨x, hx, hcode⟩

/-- A sheet whose code column holds a missing cell (NaN), a whitespace-only
cell, and a real code. -/
def sheetNanCode : Sheet := ⟨["Code"], [[none], [some "  "], [some "E1"]]⟩

/-- C4 evaluation at the failing input: the whitespace-only code row is
dropped, but the row whose code cell is missing survives coercion with the
literal code string "nan" — `astype(str)` stringifies NaN before line 118's
`dropna` (a no-op by then) and line 119's emptiness filter, so the claimed
drop of blank code cells does not happen for missing values. -/
theorem C4_blank_code_not_dropped :
    coerce_sheet sheetNanCode { code := ["Code"] } =
      [⟨"nan", none, none, none⟩, ⟨"E1", none, none, none⟩] ∧
    ∃ r, r ∈ coerce_sheet sheetNanCode { code := ["Code"] } ∧ r.Code = "nan" := by
  refine ⟨by decide, ⟨"nan", none, none, none⟩, by decide, rfl⟩

/-- C5: sheet selection keeps a subsequence of `all_names` (original order,
nothing invented); a non-empty explicit list keeps exactly the names of
`all_names` appearing in it, with the pattern ignored; otherwise a present
pattern keeps exactly the names whose stripped value the anchored matcher
accepts; otherwise all names are kept. -/
theorem C5_sheet_selection (all_names explicit_list : List String)
    (pattern : Option (String → Bool)) :
    (filter_sheet_names all_names explicit_list pattern).Sublist all_names ∧
    (explicit_list ≠ [] →
      (∀ n, n ∈ filter_sheet_names all_names explicit_list pattern ↔
        n ∈ all_names ∧ n ∈ explicit_list) ∧
      filter_sheet_names all_names explicit_list pattern =
        filter_sheet_names all_names explicit_list none) ∧
    (∀ rx, explicit_list = [] → pattern = some rx →
      ∀ n, n ∈ filter_sheet_names all_names explicit_list pattern ↔
        n ∈ all_names ∧ rx (stripStr n) = true) ∧
    (explicit_list = [] → pattern = none →
      filter_sheet_names all_names explicit_list pattern = all_names) := by
  refine ⟨?_, ?_, ?_, ?_⟩
  · rw [filter_sheet_names.eq_def]
    by_cases he : explicit_list.isEmpty
    · rw [if_pos he]
      cases pattern with
      | none => exact List.Sublist.refl _
      | some rx => exact List.filter_sublist _
    · rw [if_neg he]
      exact List.filter_sublist _
  · intro hne
    have he : explicit_list.isEmpty = false := by simp [hne]
    constructor
    · intro n
      rw [filter_sheet_names.eq_def, if_neg (by simp [he])]
      rw [List.mem_filter]
      simp [List.elem_iff]
    · rw [filter_sheet_names.eq_def, if_neg (by simp [he])]
      rw [filter_sheet_names.eq_def, if_neg (by simp [he])]
  · intro rx he hp n
    subst he
    subst hp
    rw [filter_sheet_names.eq_def, if_pos (by simp)]
    rw [List.mem_filter]
  · intro he hp
    subst he
    subst hp
    rw [filter_sheet_names.eq_def, if_pos (by simp)]

/-- C5 witness: an explicit list keeps `all_names` order (not the explicit
list's order) and hides the pattern; without an explicit list the pattern
selects by its match on the stripped name. -/
theorem C5_selection_witness :
    filter_sheet_names ["S1", "Notes", "S2"] ["S2", "S1"] none = ["S1", "S2"] ∧
    ("Notes" ∈ filter_sheet_names ["S1", "Notes", "S2"] ["S2", "S1"]
        (some (fun s => s == "S1")) ↔
      ("Notes" ∈ ["S1", "Notes", "S2"] ∧ "Notes" ∈ ["S2", "S1"])) ∧
    filter_sheet_names ["S1", "Notes", "S2"] [] (some (fun s => s == "S1")) = ["S1"] :=
  ⟨by decide,
    ((C5_sheet_selection ["S1", "Notes", "S2"] ["S2", "S1"]
        (some (fun s => s == "S1"))).2.1 (by decide)).1 "Notes",
    by decide⟩

/-! ### Helper lemmas about the build pipeline -/

lemma filter_sheet_names_sublist (all_names explicit_list : List String)
    (pattern : Option (String → Bool)) :
    (filter_sheet_names all_names explicit_list pattern).Sublist all_names := by
  rw [filter_sheet_names.eq_def]
  by_cases he : explicit_list.isEmpty
  · rw [if_pos he]
    cases pattern with
    | none => exact List.Sublist.refl _
    | some rx => exact List.filter_sublist _
  · rw [if_neg he]
    exact List.filter_sublist _

lemma filter_sheet_names_append (l1 l2 explicit_list : List String)
    (pattern : Option (String → Bool)) :
    filter_sheet_names (l1 ++ l2) explicit_list pattern =
      filter_sheet_names l1 explicit_list pattern ++
        filter_sheet_names l2 explicit_list pattern := by
  rw [filter_sheet_names.eq_def, filter_sheet_names.eq_def, filter_sheet_names.eq_def]
  by_cases he : explicit_list.isEmpty
  · rw [if_pos he, if_pos he, if_pos he]
    cases pattern with
    | none => rfl
    | some rx => exact List.filter_append _ _
  · rw [if_neg he, if_neg he, if_neg he]
    exact List.filter_append _ _

lemma lookup_isSome_of_mem_fst {β : Type} {l : List (String × β)} {k : String}
    (h : k ∈ l.map Prod.fst) : (l.lookup k).isSome := by
  induction l with
  | nil => simp at h
  | cons p t ih =>
    cases hk : k == p.1 with
    | true => simp [List.lookup, hk]
    | false =>
      have hne : k ≠ p.1 := by simpa using hk
      simp only [List.lookup, hk]
      apply ih
      simp only [List.map_cons, List.mem_cons] at h
      rcases h with heq | htl
      · exact absurd heq hne
      · exact htl

lemma lookup_append_left_of_isSome {β : Type} {l1 l2 : List (String × β)} {k : String}
    (h : (l1.lookup k).isSome) : (l1 ++ l2).lookup k = l1.lookup k := by
  induction l1 with
  | nil => simp [List.lookup] at h
  | cons p t ih =>
    cases hk : k == p.1 with
    | true => simp [List.lookup, hk]
    | false =>
      simp only [List.cons_append, List.lookup, hk]
      apply ih
      simpa [List.lookup, hk] using h

lemma lookup_append_right_of_not_mem {β : Type} {l1 l2 : List (String × β)} {k : String}
    (h : k ∉ l1.map Prod.fst) : (l1 ++ l2).lookup k = l2.lookup k := by
  induction l1 with
  | nil => rfl
  | cons p t ih =>
    have hne : k ≠ p.1 := fun heq => h (by simp [heq])
    have hk : (k == p.1) = false := by simpa using hne
    simp only [List.cons_append, List.lookup, hk]
    apply ih
    intro hm
    apply h
    simp only [List.map_cons, List.mem_cons]
    exact Or.inr hm

lemma sheetBatches_append_skipped (wb : List (String × Sheet)) (name : String) (s : Sheet)
    (explicit : List String) (cfg : GeoConfig)
    (hfresh : name ∉ wb.map Prod.fst)
    (hskip : has_required_columns s
      ((cfg.per_sheet_overrides.lookup name).getD cfg.column_map) = false) :
    sheetBatches (wb ++ [(name, s)]) explicit cfg = sheetBatches wb explicit cfg := by
  rw [sheetBatches, sheetBatches, List.map_append, filter_sheet_names_append,
    List.filterMap_append]
  have hleft : ∀ n ∈ filter_sheet_names (wb.map Prod.fst) explicit cfg.sheet_name_pattern,
      (match (wb ++ [(name, s)]).lookup n with
        | none => none
        | some df =>
          let use_map := ((cfg.per_sheet_overrides.lookup n).getD cfg.column_map)
          if has_required_columns df use_map then some (coerce_sheet df use_map) else none) =
      (match wb.lookup n with
        | none => none
        | some df =>
          let use_map := ((cfg.per_sheet_overrides.lookup n).getD cfg.column_map)
          if has_required_columns df use_map then some (coerce_sheet df use_map) else none) := by
    intro n hn
    have hmem : n ∈ wb.map Prod.fst :=
      (filter_sheet_names_sublist _ _ _).subset hn
    rw [lookup_append_left_of_isSome (lookup_isSome_of_mem_fst hmem)]
  have hright : (filter_sheet_names ((List.map Prod.fst [(name, s)])) explicit
      cfg.sheet_name_pattern).filterMap
        (fun sheet =>
          match (wb ++ [(name, s)]).lookup sheet with
          | none => none
          | some df =>
            let use_map := ((cfg.per_sheet_overrides.lookup sheet).getD cfg.column_map)
            if has_required_columns df use_map then some (coerce_sheet df use_map)
            else none) = [] := by
    rw [List.filterMap_eq_nil_iff]
    intro n hn
    have : n ∈ List.map Prod.fst [(name, s)] :=
      (filter_sheet_names_sublist _ _ _).subset hn
    have hn2 : n = name := by simpa using this
    subst hn2
    rw [lookup_append_right_of_not_mem hfresh]
    simp only [List.lookup, beq_self_eq_true]
    rw [hskip]
    simp
  rw [List.filterMap_congr hleft, hright, List.append_nil]

lemma filter_nonempty_isEmpty_iff {α : Type} (l : List (List α)) :
    (l.filter (fun b => !b.isEmpty)).isEmpty = true ↔ l.flatten = [] := by
  induction l with
  | nil => simp
  | cons b t ih =>
    cases b with
    | nil => simp [ih]
    | cons x xs => simp

/-- C7: given both workbooks load, the build fails with the empty-result
error exactly when the concatenation of every coerced batch of both
workbooks is empty, and any build failure makes the process exit with
status 1 and write no lookup table. -/
theorem C7_empty_result_fatal (rawEwni rawScot : List (String × Except String Sheet))
    (cfg : GeoConfig) (ewni scot : List (String × Sheet))
    (hE : load_xlsx rawEwni = .ok ewni) (hS : load_xlsx rawScot = .ok scot) :
    (build_geo_lookup rawEwni rawScot cfg = .error .emptyResult ↔
      (sheetBatches ewni cfg.ewni_sheets cfg ++
        sheetBatches scot cfg.scotland_sheets cfg).flatten = []) ∧
    (∀ e, build_geo_lookup rawEwni rawScot cfg = .error e →
      run_geo rawEwni rawScot cfg = (1, none)) := by
  have hb : build_geo_lookup rawEwni rawScot cfg =
      (if ((sheetBatches ewni cfg.ewni_sheets cfg).filter (fun b => !b.isEmpty) ++
            (sheetBatches scot cfg.scotland_sheets cfg).filter (fun b => !b.isEmpty)).isEmpty
        then Except.error BuildError.emptyResult
        else Except.ok (merge_batches
          ((sheetBatches ewni cfg.ewni_sheets cfg).filter (fun b => !b.isEmpty) ++
            (sheetBatches scot cfg.scotland_sheets cfg).filter (fun b => !b.isEmpty)))) := by
    rw [build_geo_lookup.eq_def, hE, hS]
  have hiff : ((sheetBatches ewni cfg.ewni_sheets cfg).filter (fun b => !b.isEmpty) ++
      (sheetBatches scot cfg.scotland_sheets cfg).filter (fun b => !b.isEmpty)).isEmpty = true ↔
      (sheetBatches ewni cfg.ewni_sheets cfg ++
        sheetBatches scot cfg.scotland_sheets cfg).flatten = [] := by
    rw [← List.filter_append]
    exact filter_nonempty_isEmpty_iff _
  constructor
  · constructor
    · intro herr
      rw [hb] at herr
      by_cases hout : ((sheetBatches ewni cfg.ewni_sheets cfg).filter (fun b => !b.isEmpty) ++
          (sheetBatches scot cfg.scotland_sheets cfg).filter (fun b => !b.isEmpty)).isEmpty
      · exact hiff.mp hout
      · rw [if_neg hout] at herr
        exact absurd herr (by simp)
    · intro hflat
      rw [hb, if_pos (hiff.mpr hflat)]
  · intro e herr
    rw [run_geo.eq_def, herr]

/-- A sheet whose only code cell is whitespace, so it coerces to zero
records. -/
def sheetBlank : Sheet := ⟨["Code"], [[some "  "]]⟩

/-- A configuration whose base column map only knows the `Code` candidate. -/
def cfgCode : GeoConfig := { column_map := { code := ["Code"] } }

/-- C7 witness: a run whose only sheet coerces to zero records raises the
empty-result error, exits with status 1 and writes nothing. -/
theorem C7_empty_result_witness :
    build_geo_lookup [("Blank", .ok sheetBlank)] [] cfgCode = .error .emptyResult ∧
    run_geo [("Blank", .ok sheetBlank)] [] cfgCode = (1, none) := by
  have h := C7_empty_result_fatal [("Blank", .ok sheetBlank)] [] cfgCode
    [("Blank", sheetBlank)] [] rfl rfl
  have hberr : build_geo_lookup [("Blank", .ok sheetBlank)] [] cfgCode =
      .error .emptyResult := h.1.mpr (by decide)
  exact ⟨hberr, h.2 _ hberr⟩

/-- C6 (amended): there is no per-sheet error recovery.  A sheet whose parse
fails surfaces as a load error of its whole workbook and aborts the build
(first or second workbook alike); what the run does skip and continue past
is a sheet lacking a resolvable code column, which contributes zero
records. -/
theorem C6_sheet_error_aborts :
    (∀ rawEwni rawScot cfg msg, load_xlsx rawEwni = .error msg →
      build_geo_lookup rawEwni rawScot cfg = .error (.loadError msg)) ∧
    (∀ rawEwni rawScot cfg ewni msg, load_xlsx rawEwni = .ok ewni →
      load_xlsx rawScot = .error msg →
      build_geo_lookup rawEwni rawScot cfg = .error (.loadError msg)) ∧
    (∀ wb name s explicit cfg, name ∉ wb.map Prod.fst →
      has_required_columns s
        ((GeoConfig.per_sheet_overrides cfg |>.lookup name).getD cfg.column_map) = false →
      sheetBatches (wb ++ [(name, s)]) explicit cfg = sheetBatches wb explicit cfg) := by
  refine ⟨?_, ?_, ?_⟩
  · intro rawEwni rawScot cfg msg h
    rw [build_geo_lookup.eq_def, h]
  · intro rawEwni rawScot cfg ewni msg hE hS
    rw [build_geo_lookup.eq_def, hE, hS]
  · intro wb name s explicit cfg hfresh hskip
    exact sheetBatches_append_skipped wb name s explicit cfg hfresh hskip

/-- A well-formed sheet that coerces to one record. -/
def sheetGood : Sheet := ⟨["Code", "Name"], [[some "E1", some "Alpha"]]⟩

/-- A configuration resolving `Code` and `Name`. -/
def cfgCodeName : GeoConfig := { column_map := { code := ["Code"], name := ["Name"] } }

/-- C6 counterexample: a workbook holding one failing sheet and one good
sheet.  The claim predicts the failing sheet is caught, logged and treated as
zero records while the good sheet's record is still built; the code instead
aborts the whole run with exit status 1 and no table, although the good
sheet alone yields a record. -/
theorem C6_sheet_error_counterexample :
    run_geo [("Bad", .error "parse error"), ("Good", .ok sheetGood)] [] cfgCodeName =
      (1, none) ∧
    build_geo_lookup [("Good", .ok sheetGood)] [] cfgCodeName =
      .ok [⟨"E1", some "Alpha", none, none⟩] := by
  constructor
  · rfl
  · rfl

/-- A sheet with no resolvable code column. -/
def sheetNoCode : Sheet := ⟨["Foo"], [[some "x"]]⟩

/-- C6 witness: a failing sheet aborts the build with a load error, while a
sheet lacking a code column is skipped without affecting the batches. -/
theorem C6_sheet_error_witness :
    build_geo_lookup [("Bad", .error "parse error")] [] cfgCodeName =
      .error (.loadError "parse error") ∧
    sheetBatches ([("Good", sheetGood)] ++ [("NoCode", sheetNoCode)]) [] cfgCodeName =
      sheetBatches [("Good", sheetGood)] [] cfgCodeName :=
  ⟨C6_sheet_error_aborts.1 _ _ _ _ rfl,
    C6_sheet_error_aborts.2.2 [("Good", sheetGood)] "NoCode" sheetNoCode [] cfgCodeName
      (by decide) (by decide)⟩

/-! ### Helper lemmas about the enrichment join -/

lemma append_name_inj {a b : String} (h : a ++ "_name" = b ++ "_name") : a = b := by
  have hd : a.data ++ String.data "_name" = b.data ++ String.data "_name" := by
    rw [← String.data_append, ← String.data_append, h]
  have h2 : a.data = b.data := List.append_cancel_right hd
  cases a with
  | mk la =>
    cases b with
    | mk lb => exact congrArg String.mk (by simpa using h2)

lemma setCol_mem_cases {u : Table} {h : String} {v : List (Option String)}
    {p : String × List (Option String)} (hp : p ∈ setCol u h v) :
    p = (h, v) ∨ p ∈ u := by
  rw [setCol] at hp
  by_cases hg : u.any (fun q => q.1 == h)
  · rw [if_pos hg] at hp
    obtain ⟨q, hq, hqe⟩ := List.mem_map.mp hp
    by_cases hqh : q.1 == h
    · rw [if_pos hqh] at hqe
      exact Or.inl hqe.symm
    · rw [if_neg hqh] at hqe
      exact Or.inr (hqe ▸ hq)
  · rw [if_neg hg] at hp
    rcases List.mem_append.mp hp with h1 | h2
    · exact Or.inr h1
    · exact Or.inl (by simpa using h2)

lemma setCol_mem_fst (u : Table) (h : String) (v : List (Option String)) :
    h ∈ (setCol u h v).map Prod.fst := by
  rw [setCol]
  by_cases hg : u.any (fun q => q.1 == h)
  · rw [if_pos hg]
    obtain ⟨q, hq, hqe⟩ := List.any_eq_true.mp hg
    refine List.mem_map.mpr ⟨(h, v), List.mem_map.mpr ⟨q, hq, ?_⟩, rfl⟩
    rw [if_pos hqe]
  · rw [if_neg hg]
    simp

lemma setCol_fst_superset {u : Table} {h x : String} {v : List (Option String)}
    (hx : x ∈ u.map Prod.fst) : x ∈ (setCol u h v).map Prod.fst := by
  rw [setCol]
  by_cases hg : u.any (fun q => q.1 == h)
  · rw [if_pos hg]
    obtain ⟨p, hp, hpe⟩ := List.mem_map.mp hx
    by_cases hph : p.1 == h
    · have hp1 : p.1 = h := by simpa using hph
      refine List.mem_map.mpr ⟨(h, v), List.mem_map.mpr ⟨p, hp, by rw [if_pos hph]⟩, ?_⟩
      rw [← hpe, hp1]
    · exact List.mem_map.mpr ⟨p, List.mem_map.mpr ⟨p, hp, by rw [if_neg hph]⟩, hpe⟩
  · rw [if_neg hg]
    rw [List.map_append]
    exact List.mem_append.mpr (Or.inl hx)

lemma join_step_fst_superset {d : GeoDict} {acc : Table} {col x : String}
    (hx : x ∈ acc.map Prod.fst) : x ∈ (join_step d acc col).map Prod.fst := by
  rw [join_step]
  by_cases hg : acc.any (fun p => p.1 == col)
  · rw [if_pos hg]
    exact setCol_fst_superset hx
  · rw [if_neg hg]
    exact hx

lemma foldl_join_fst_superset (d : GeoDict) (jc : List String) :
    ∀ (acc : Table) (x : String), x ∈ acc.map Prod.fst →
      x ∈ (jc.foldl (join_step d) acc).map Prod.fst := by
  induction jc with
  | nil =>
    intro acc x hx
    exact hx
  | cons col rest ih =>
    intro acc x hx
    rw [List.foldl_cons]
    exact ih _ _ (join_step_fst_superset hx)

lemma setCol_prefix {t acc : Table} {h : String} {v : List (Option String)}
    (hpre : t <+: acc) (hnot : h ∉ t.map Prod.fst) : t <+: setCol acc h v := by
  obtain ⟨r, rfl⟩ := hpre
  rw [setCol]
  by_cases hg : (t ++ r).any (fun q => q.1 == h)
  · rw [if_pos hg, List.map_append]
    have ht : t.map (fun q => if q.1 == h then (h, v) else q) = t := by
      calc t.map (fun q => if q.1 == h then (h, v) else q) = t.map id :=
            List.map_congr_left (fun q hq => by
              have hne : q.1 ≠ h := fun he => hnot (List.mem_map.mpr ⟨q, hq, he⟩)
              rw [if_neg (by simpa using hne)]
              rfl)
        _ = t := List.map_id t
    rw [ht]
    exact List.prefix_append _ _
  · rw [if_neg hg, List.append_assoc]
    exact List.prefix_append _ _

lemma find?_fst_of_mem {β : Type} {u : List (String × β)} {h : String}
    (hmem : h ∈ u.map Prod.fst) :
    ∃ p, u.find? (fun q => q.1 == h) = some p ∧ p ∈ u ∧ p.1 = h := by
  cases hf : u.find? (fun q => q.1 == h) with
  | none =>
    rw [List.find?_eq_none] at hf
    obtain ⟨p, hp, hpe⟩ := List.mem_map.mp hmem
    exact absurd (by simpa using hpe) (hf p hp)
  | some p =>
    refine ⟨p, rfl, List.mem_of_find?_eq_some hf, ?_⟩
    have := List.find?_some hf
    simpa using this

lemma getCol_of_prefix {t u : Table} {h : String} (hpre : t <+: u)
    (hmem : h ∈ t.map Prod.fst) : getCol u h = getCol t h := by
  obtain ⟨r, rfl⟩ := hpre
  rw [getCol, getCol, List.find?_append]
  obtain ⟨p, hf, hp, hpe⟩ := find?_fst_of_mem hmem
  rw [hf]
  rfl

lemma dictGet_mem_of_isSome {d : GeoDict} {k : String}
    (h : (dictGet d k).isSome) : k ∈ d.map Prod.fst := by
  induction d with
  | nil => simp [dictGet] at h
  | cons p rest ih =>
    rw [dictGet] at h
    cases hres : dictGet rest k with
    | some w =>
      exact List.mem_map.mpr (by
        obtain ⟨q, hq, hqe⟩ := List.mem_map.mp (ih (by rw [hres]; rfl))
        exact ⟨q, List.mem_cons_of_mem _ hq, hqe⟩)
    | none =>
      rw [hres] at h
      by_cases hk : p.1 == k
      · have hp1 : p.1 = k := by simpa using hk
        exact List.mem_map.mpr ⟨p, List.mem_cons_self _ _, hp1⟩
      · rw [if_neg hk] at h
        simp at h

lemma dictGet_eq_none_of_not_mem {d : GeoDict} {k : String} (h : k ∉ d.map Prod.fst) :
    dictGet d k = none := by
  cases hres : dictGet d k with
  | none => rfl
  | some v => exact absurd (dictGet_mem_of_isSome (by rw [hres]; rfl)) h

lemma dictGet_eq_some_of_nodup {d : GeoDict} {code : String} {nm : Option String}
    (hnodup : (d.map Prod.fst).Nodup) (hmem : (code, nm) ∈ d) :
    dictGet d code = some nm := by
  induction d with
  | nil => simp at hmem
  | cons p rest ih =>
    rw [List.map_cons, List.nodup_cons] at hnodup
    rw [dictGet]
    rcases List.mem_cons.mp hmem with heq | htl
    · have hcode : p.1 = code := by rw [← heq]
      have hrest : dictGet rest code = none :=
        dictGet_eq_none_of_not_mem (by rw [← hcode]; exact hnodup.1)
      rw [hrest, if_pos (by simpa using hcode)]
      rw [← heq]
    · rw [ih hnodup.2 htl]

lemma mapThroughDict_getD_some {vals : List (Option String)} {d : GeoDict}
    {code : String} {i : Nat} (h : vals.getD i none = some code) :
    (mapThroughDict vals d).getD i none = (dictGet d code).join := by
  rw [mapThroughDict, List.getD_eq_getElem?_getD, List.getElem?_map]
  rw [List.getD_eq_getElem?_getD] at h
  cases hv : vals[i]? with
  | none =>
    rw [hv] at h
    simp at h
  | some v =>
    rw [hv] at h
    simp only [Option.getD_some] at h
    rw [h]
    rfl

lemma mapThroughDict_getD_none {vals : List (Option String)} {d : GeoDict} {i : Nat}
    (h : vals.getD i none = none) : (mapThroughDict vals d).getD i none = none := by
  rw [mapThroughDict, List.getD_eq_getElem?_getD, List.getElem?_map]
  rw [List.getD_eq_getElem?_getD] at h
  cases hv : vals[i]? with
  | none => rfl
  | some v =>
    rw [hv] at h
    simp only [Option.getD_some] at h
    rw [h]
    rfl

lemma renameCols_snd (u : Table) (ren : List (String × String)) :
    (renameCols u ren).map Prod.snd = u.map Prod.snd := by
  rw [renameCols, List.map_map]
  rfl

lemma renameCols_unknown (u : Table) (ren : List (String × String))
    (h : ∀ q ∈ ren, q.1 ∉ u.map Prod.fst) : renameCols u ren = u := by
  rw [renameCols]
  have hfix : ∀ p ∈ u,
      ((((ren.find? (fun q => q.1 == p.1)).map Prod.snd).getD p.1), p.2) = p := by
    intro p hp
    cases hf : ren.find? (fun q => q.1 == p.1) with
    | none => rfl
    | some q =>
      exfalso
      have hq := List.mem_of_find?_eq_some hf
      have hqe : q.1 = p.1 := by simpa using List.find?_some hf
      exact h q hq (hqe ▸ List.mem_map.mpr ⟨p, hp, rfl⟩)
  calc u.map (fun p => ((((ren.find? (fun q => q.1 == p.1)).map Prod.snd).getD p.1), p.2))
      = u.map id := List.map_congr_left hfix
    _ = u := List.map_id u

lemma joinColumns_prefix_only (d : GeoDict) (t : Table) :
    ∀ (jc : List String) (acc : Table),
      (∀ c ∈ jc, (c ++ "_name") ∉ t.map Prod.fst) → t <+: acc →
      t <+: jc.foldl (join_step d) acc := by
  intro jc
  induction jc with
  | nil =>
    intro acc _ hpre
    exact hpre
  | cons col rest ih =>
    intro acc hfresh hpre
    rw [List.foldl_cons]
    apply ih
    · intro c hc
      exact hfresh c (List.mem_cons_of_mem _ hc)
    · rw [join_step]
      by_cases hg : acc.any (fun p => p.1 == col)
      · rw [if_pos hg]
        exact setCol_prefix hpre (hfresh col (List.mem_cons_self _ _))
      · rw [if_neg hg]
        exact hpre

lemma joinColumns_fold_inv (d : GeoDict) (t : Table) (jcAll : List String)
    (h1 : ∀ c ∈ jcAll, (c ++ "_name") ∉ t.map Prod.fst)
    (h2 : ∀ c ∈ jcAll, ∀ c2 ∈ jcAll, c ≠ c2 ++ "_name") :
    ∀ (jc : List String) (acc : Table), (∀ c ∈ jc, c ∈ jcAll) →
      t <+: acc →
      (∀ p ∈ acc, p ∈ t ∨ ∃ c, c ∈ jcAll ∧ c ∈ t.map Prod.fst ∧ p.1 = c ++ "_name" ∧
        p.2 = mapThroughDict (getCol t c) d) →
      t <+: jc.foldl (join_step d) acc ∧
      (∀ p ∈ jc.foldl (join_step d) acc, p ∈ t ∨ ∃ c, c ∈ jcAll ∧ c ∈ t.map Prod.fst ∧
        p.1 = c ++ "_name" ∧ p.2 = mapThroughDict (getCol t c) d) ∧
      (∀ c ∈ jc, c ∈ t.map Prod.fst →
        (c ++ "_name") ∈ (jc.foldl (join_step d) acc).map Prod.fst) := by
  intro jc
  induction jc with
  | nil =>
    intro acc _ hpre hinv
    exact ⟨hpre, hinv, by simp⟩
  | cons col rest ih =>
    intro acc hsub hpre hinv
    have hcolAll : col ∈ jcAll := hsub col (List.mem_cons_self _ _)
    rw [List.foldl_cons]
    by_cases hg : acc.any (fun p => p.1 == col)
    · have hcolt : col ∈ t.map Prod.fst := by
        obtain ⟨p, hp, hpe⟩ := List.any_eq_true.mp hg
        have hpecol : p.1 = col := by simpa using hpe
        rcases hinv p hp with hpt | ⟨c, hcAll, hct, hpc, hpv⟩
        · exact hpecol ▸ List.mem_map.mpr ⟨p, hpt, rfl⟩
        · exfalso
          have hcoln : col = c ++ "_name" := by rw [← hpecol]; exact hpc
          exact h2 col hcolAll c hcAll hcoln
      have hgc : getCol acc col = getCol t col := getCol_of_prefix hpre hcolt
      have hstep : join_step d acc col =
          setCol acc (col ++ "_name") (mapThroughDict (getCol t col) d) := by
        rw [join_step, if_pos hg, hgc]
      have hpre2 : t <+: join_step d acc col := by
        rw [hstep]
        exact setCol_prefix hpre (h1 col hcolAll)
      have hinv2 : ∀ p ∈ join_step d acc col, p ∈ t ∨ ∃ c, c ∈ jcAll ∧
          c ∈ t.map Prod.fst ∧ p.1 = c ++ "_name" ∧
          p.2 = mapThroughDict (getCol t c) d := by
        intro p hp
        rw [hstep] at hp
        rcases setCol_mem_cases hp with rfl | hpacc
        · exact Or.inr ⟨col, hcolAll, hcolt, rfl, rfl⟩
        · exact hinv p hpacc
      obtain ⟨hfp, hfi, hfm⟩ := ih (join_step d acc col)
        (fun c hc => hsub c (List.mem_cons_of_mem _ hc)) hpre2 hinv2
      refine ⟨hfp, hfi, ?_⟩
      intro c hc hct
      rcases List.mem_cons.mp hc with rfl | hcrest
      · apply foldl_join_fst_superset
        rw [hstep]
        exact setCol_mem_fst _ _ _
      · exact hfm c hcrest hct
    · have hstep : join_step d acc col = acc := by rw [join_step, if_neg hg]
      rw [hstep]
      obtain ⟨hfp, hfi, hfm⟩ := ih acc
        (fun c hc => hsub c (List.mem_cons_of_mem _ hc)) hpre hinv
      refine ⟨hfp, hfi, ?_⟩
      intro c hc hct
      rcases List.mem_cons.mp hc with rfl | hcrest
      · exfalso
        obtain ⟨p, hp, hpe⟩ := List.mem_map.mp hct
        apply hg
        have hpacc : p ∈ acc := hpre.sublist.subset hp
        exact List.any_eq_true.mpr ⟨p, hpacc, by simpa using hpe⟩
      · exact hfm c hcrest hct

/-- C8 (amended): the join loop checks column membership against the frame as
already extended by earlier iterations, and assigning to an existing label
overwrites it.  Provided no listed column's `<column>_name` label collides
with an existing column and no listed column is itself another listed
column's `<column>_name`, each listed column present in the secondary table
gains a `<column>_name` column whose rows are the dict image of that column's
code cells — for a dict with unique codes, the `Name` of the record whose
`Code` equals the row's code, null when no record has that code or the cell
is missing — and listed columns absent from the secondary table add no
column. -/
theorem C8_enrichment_join (t : Table) (jc : List String) (d : GeoDict)
    (h1 : ∀ c ∈ jc, (c ++ "_name") ∉ t.map Prod.fst)
    (h2 : ∀ c ∈ jc, ∀ c2 ∈ jc, c ≠ c2 ++ "_name") :
    (∀ c ∈ jc, c ∈ t.map Prod.fst →
      getCol (joinColumns t jc d) (c ++ "_name") = mapThroughDict (getCol t c) d) ∧
    (∀ c ∈ jc, c ∉ t.map Prod.fst →
      (c ++ "_name") ∉ (joinColumns t jc d).map Prod.fst) ∧
    (∀ vals code nm, (d.map Prod.fst).Nodup → (code, nm) ∈ d → ∀ i : Nat,
      vals.getD i none = some code → (mapThroughDict vals d).getD i none = nm) ∧
    (∀ vals code, code ∉ d.map Prod.fst → ∀ i : Nat,
      vals.getD i none = some code → (mapThroughDict vals d).getD i none = none) ∧
    (∀ vals, ∀ i : Nat,
      vals.getD i none = none → (mapThroughDict vals d).getD i none = none) := by
  obtain ⟨hpre, hinv, hmem⟩ := joinColumns_fold_inv d t jc h1 h2 jc t (fun c hc => hc)
    (List.prefix_refl t) (fun p hp => Or.inl hp)
  refine ⟨?_, ?_, ?_, ?_, ?_⟩
  · intro c hc hct
    have hname : (c ++ "_name") ∈ (joinColumns t jc d).map Prod.fst := hmem c hc hct
    obtain ⟨p, hf, hp, hpe⟩ := find?_fst_of_mem hname
    rw [joinColumns] at hf hp ⊢
    rw [getCol, hf]
    rcases hinv p hp with hpt | ⟨c2, hc2All, hc2t, hpc, hpv⟩
    · exfalso
      exact h1 c hc (hpe ▸ List.mem_map.mpr ⟨p, hpt, rfl⟩)
    · have hcc : c = c2 := append_name_inj (by rw [← hpe, hpc])
      rw [hcc]
      exact hpv
  · intro c hc hct hmem2
    rw [joinColumns] at hmem2
    obtain ⟨p, hp, hpe⟩ := List.mem_map.mp hmem2
    rcases hinv p hp with hpt | ⟨c2, hc2All, hc2t, hpc, hpv⟩
    · exact h1 c hc (hpe ▸ List.mem_map.mpr ⟨p, hpt, rfl⟩)
    · have hcc : c = c2 := append_name_inj (by rw [← hpe, hpc])
      exact hct (hcc ▸ hc2t)
  · intro vals code nm hnodup hmem2 i hv
    rw [mapThroughDict_getD_some hv, dictGet_eq_some_of_nodup hnodup hmem2]
    rfl
  · intro vals code hcode i hv
    rw [mapThroughDict_getD_some hv, dictGet_eq_none_of_not_mem hcode]
    rfl
  · intro vals i hv
    exact mapThroughDict_getD_none hv

/-- A one-column secondary table with two matched codes and a missing cell. -/
def tblCty : Table := [("cty", [some "E1", some "Z9", none])]

/-- A one-record enrichment dict. -/
def dictCty : GeoDict := [("E1", some "Essex")]

/-- C8 witness: the `cty` column gains a `cty_name` column equal to the dict
image of its cells — `Essex` for the matched code, null for the unmatched
code `Z9` and for the missing cell. -/
theorem C8_enrichment_witness :
    getCol (joinColumns tblCty ["cty"] dictCty) ("cty" ++ "_name") =
      mapThroughDict (getCol tblCty "cty") dictCty ∧
    mapThroughDict (getCol tblCty "cty") dictCty = [some "Essex", none, none] :=
  ⟨(C8_enrichment_join tblCty ["cty"] dictCty (by decide) (by decide)).1 "cty"
      (by decide) (by decide),
    by decide⟩

/-- The secondary table of the C8 counterexample: only an `x` column. -/
def tblX : Table := [("x", [some "E1"])]

/-- C8 counterexample: with join columns `["x", "x_name"]`, the listed column
`x_name` is absent from the secondary table, yet the build still adds a
column for it (`x_name_name`), because membership is tested against the frame
already extended by the `x` join — the claim predicts columns
`["x", "x_name"]` only. -/
theorem C8_enrichment_counterexample :
    "x_name" ∉ tblX.map Prod.fst ∧
    (build_postcode_lookup tblX ["x", "x_name"] [("E1", some "Area")] []).map Prod.fst =
      ["x", "x_name", "x_name_name"] := by
  constructor
  · decide
  · rfl

/-- C9 (amended): provided no original column is labelled `<column>_name` for
a listed join column, the join never mutates the secondary table — the
original table is a prefix of the joined table, so only new columns are
appended (without that proviso an original `<column>_name` column is
overwritten in place); the rename mapping is applied after the join, never
alters column values, and a mapping whose keys label no column is ignored
without error. -/
theorem C9_join_appends_only (t : Table) (jc : List String) (d : GeoDict)
    (ren : List (String × String))
    (h1 : ∀ c ∈ jc, (c ++ "_name") ∉ t.map Prod.fst) :
    t <+: joinColumns t jc d ∧
    (build_postcode_lookup t jc d ren).map Prod.snd =
      (joinColumns t jc d).map Prod.snd ∧
    ((∀ q ∈ ren, q.1 ∉ (joinColumns t jc d).map Prod.fst) →
      build_postcode_lookup t jc d ren = joinColumns t jc d) := by
  refine ⟨?_, ?_, ?_⟩
  · rw [joinColumns]
    exact joinColumns_prefix_only d t jc t h1 (List.prefix_refl t)
  · rw [build_postcode_lookup]
    exact renameCols_snd _ _
  · intro h
    rw [build_postcode_lookup]
    exact renameCols_unknown _ _ h

/-- C9 witness: the joined table extends the original one-column table, the
rename step leaves values untouched, and a rename mapping with an unknown key
is a no-op. -/
theorem C9_join_witness :
    tblCty <+: joinColumns tblCty ["cty"] dictCty ∧
    build_postcode_lookup tblCty ["cty"] dictCty [("zzz", "y")] =
      joinColumns tblCty ["cty"] dictCty := by
  have h := C9_join_appends_only tblCty ["cty"] dictCty [("zzz", "y")] (by decide)
  exact ⟨h.1, h.2.2 (by decide)⟩

/-- The secondary table of the C9 counterexample: it already owns a column
labelled `x_name`. -/
def tblXName : Table := [("x", [some "E1"]), ("x_name", [some "orig"])]

/-- C9 counterexample: joining on `x` assigns to the label `x_name`, which
already exists in the secondary table, so the original `x_name` column's
values are overwritten in place (`orig` becomes `Area`) — the claim predicts
original columns are never mutated. -/
theorem C9_join_counterexample :
    "x_name" ∈ tblXName.map Prod.fst ∧
    getCol tblXName "x_name" = [some "orig"] ∧
    getCol (build_postcode_lookup tblXName ["x"] [("E1", some "Area")] []) "x_name" =
      [some "Area"] := by
  refine ⟨by decide, rfl, rfl⟩
